import Mathlib

set_option maxRecDepth 8000

/-!
Shallow embedding of the ncd HLS downloader core (src/hls/hls.rs and
src/httpx/client.rs).

Bytes are modelled as `List Nat` (each entry a byte value).  Fallible Rust
code is modelled with `Except`; a Rust panic (an `unwrap` on `None`/`Err`)
is modelled as the distinguished outcome `Failure.panic`, kept apart from
ordinary error values of the `Error` enum (modelled by `Err`).  Network
responses are supplied by an oracle (`Env`), and the AES-128 block cipher
of the external `aes` crate is a parameter `blockDec : key → block → block`;
everything the repository itself implements (CBC chaining, PKCS7 unpadding
via the `cbc`/`block-padding` crate semantics, IV parsing, key resolution,
the per-segment loop, variant selection, the transfer resume logic) is
translated directly from the source.  Side effects relevant to the claims
(key fetches, segment fetches, temp-file creation/removal, sink spawn /
kill / wait) are recorded as an event log threaded through the writer-like
monad `M`.
-/

/-- Byte strings of the program, one `Nat` per byte. -/
abbrev Bytes := List Nat

/-- The `m3u8_rs::KeyMethod` values as far as the code distinguishes them:
it only ever pattern-matches on `AES128`. -/
inductive KeyMethod
  | none
  | aes128
  | sampleAes
  | other
deriving DecidableEq

/-- An `EXT-X-KEY` tag (`m3u8_rs::Key`): method, optional key URI, optional IV string. -/
structure SegmentKey where
  method : KeyMethod
  uri : Option String
  iv : Option String
deriving DecidableEq

/-- One media segment (`m3u8_rs::MediaSegment`): its URI and optional key tag. -/
structure MediaSegment where
  uri : String
  key : Option SegmentKey
deriving DecidableEq

/-- A media playlist: its ordered list of segments. -/
structure MediaPlaylist where
  segments : List MediaSegment
deriving DecidableEq

/-- One variant of a master playlist (`m3u8_rs::VariantStream`): URI and declared bandwidth. -/
structure VariantStream where
  uri : String
  bandwidth : Nat
deriving DecidableEq

/-- A master (variant) playlist. -/
structure MasterPlaylist where
  variants : List VariantStream
deriving DecidableEq

/-- Result of `m3u8_rs::parse_playlist`: either kind of playlist. -/
inductive Playlist
  | media (pl : MediaPlaylist)
  | master (mp : MasterPlaylist)

/-- The variants of the downloader's `Error` enum (src/hls/hls.rs, lines 35-51). -/
inductive Err
  | http
  | httpx
  | retry
  | ioErr
  | decrypted
  | send
  | join
deriving DecidableEq

/-- How a modelled computation can end abnormally: with an ordinary `Error`
value (`err`), with a Rust panic (`panic`), or with the fuel of the model of
the unbounded `download_playlist` loop exhausted (`fuel`, a modelling device
only: the Rust `loop` has no iteration cap). -/
inductive Failure
  | err (e : Err)
  | panic
  | fuel
deriving DecidableEq

/-- Observable side effects of the pipeline, recorded in order. -/
inductive Ev
  | keyFetch (uri : String)
  | segFetch (uri : String)
  | tmpCreate
  | tmpRemove
  | spawnSink
  | killSink
  | waitSink
deriving DecidableEq

/-- A writer-plus-exceptions computation: the list of events that happened,
and the result or failure. -/
def M (α : Type) : Type := List Ev × Except Failure α

/-- Return a value with no events. -/
def M.pure {α : Type} (a : α) : M α := ([], Except.ok a)

/-- Record one event. -/
def M.log (e : Ev) : M Unit := ([e], Except.ok ())

/-- Fail with no further events. -/
def M.fail {α : Type} (f : Failure) : M α := ([], Except.error f)

/-- Sequence two computations; a failure keeps the events so far. -/
def M.bind {α β : Type} (x : M α) (f : α → M β) : M β :=
  match x with
  | (l, Except.error e) => (l, Except.error e)
  | (l, Except.ok a) => (l ++ (f a).1, (f a).2)

/-- Value of one hex digit, upper or lower case, as `hex::decode` accepts. -/
def hexVal (c : Char) : Option Nat :=
  if '0' ≤ c ∧ c ≤ '9' then some (c.toNat - '0'.toNat)
  else if 'a' ≤ c ∧ c ≤ 'f' then some (c.toNat - 'a'.toNat + 10)
  else if 'A' ≤ c ∧ c ≤ 'F' then some (c.toNat - 'A'.toNat + 10)
  else none

/-- The `hex::decode` function: two hex digits per byte; fails on odd length
or any non-hex character. -/
def hexDecode : List Char → Option Bytes
  | [] => some []
  | [_] => none
  | a :: b :: rest =>
    match hexVal a, hexVal b, hexDecode rest with
    | some hi, some lo, some tail => some ((16 * hi + lo) :: tail)
    | _, _, _ => none

/-- Rust `str::trim_start_matches("0x")`: removes ALL leading occurrences of
the pattern, not just one. -/
def trim0x : List Char → List Char
  | '0' :: 'x' :: rest => trim0x rest
  | l => l

/-- The downloader's `parse_iv` (src/hls/hls.rs, lines 110-118).  The Rust
function returns `[u8; 16]` and panics when `hex::decode` fails (`unwrap`)
or when the decoded length is not 16 (`copy_from_slice`); `none` models the
panic. -/
def parse_iv (hex_iv : String) : Option Bytes :=
  match hexDecode (trim0x hex_iv.data) with
  | none => none
  | some bytes => if bytes.length = 16 then some bytes else none

/-- Bytewise xor of two byte strings (the cbc crate's block combination). -/
def xorBytes (a b : Bytes) : Bytes := List.zipWith (fun x y => Nat.xor x y) a b

/-- Fuel-indexed block splitter (structural recursion so that it evaluates
inside the kernel; the fuel is always at least the list length). -/
def toBlocksAux : Nat → Bytes → Option (List Bytes)
  | _, [] => some []
  | 0, _ :: _ => none
  | fuel + 1, l =>
    if 16 ≤ l.length then
      match toBlocksAux fuel (l.drop 16) with
      | some bs => some (l.take 16 :: bs)
      | none => none
    else none

/-- Split a buffer into 16-byte blocks; `none` when the length is not a
multiple of the block size (the cbc crate's `decrypt_padded_mut` rejects a
ragged tail with `UnpadError`). -/
def toBlocks (l : Bytes) : Option (List Bytes) :=
  toBlocksAux l.length l

/-- CBC-mode decryption chain: each output block is the block-decryption of
the ciphertext block xored with the previous ciphertext block (the IV for
the first block). -/
def cbcChain (dec : Bytes → Bytes) (prev : Bytes) : List Bytes → List Bytes
  | [] => []
  | c :: cs => xorBytes (dec c) prev :: cbcChain dec c cs

/-- PKCS7 unpadding as the block-padding crate validates it: the last byte n
must satisfy 1 ≤ n ≤ 16 and the last n bytes must all equal n; the result
drops those n bytes.  An empty buffer has no padding and fails. -/
def pkcs7Unpad (data : Bytes) : Option Bytes :=
  match data.getLast? with
  | none => none
  | some n =>
    if n = 0 ∨ 16 < n then none
    else if data.drop (data.length - n) = List.replicate n n then
      some (data.take (data.length - n))
    else none

/-- The downloader's `decrypt_hls_ts` (src/hls/hls.rs, lines 129-141):
AES-128-CBC decryption with PKCS7 unpadding; any failure of
`decrypt_padded_mut::<Pkcs7>` becomes `Error::DecryptedError`.  The block
cipher itself (the external aes crate) is the parameter `blockDec`. -/
def decrypt_hls_ts (blockDec : Bytes → Bytes → Bytes) (encrypted : Bytes)
    (key iv : Bytes) : Except Err Bytes :=
  match toBlocks encrypted with
  | none => Except.error Err.decrypted
  | some blocks =>
    match pkcs7Unpad (List.flatten (cbcChain (blockDec key) iv blocks)) with
    | none => Except.error Err.decrypted
    | some out => Except.ok out

/-- The network/cipher oracle.  `httpGet` models `get_with_retry` followed by
`.bytes()` (used for playlist bodies and key bodies); `segDownload` models
`download_with_retry` to a temp file followed by reading that file back;
`blockDec` is the AES-128 single-block decryption of the external aes crate,
given the 16-byte key. -/
structure Env where
  httpGet : String → Except Unit Bytes
  segDownload : String → Except Unit Bytes
  blockDec : Bytes → Bytes → Bytes

/-- The downloader's `parse_segment` (src/hls/hls.rs, lines 156-207):
create a temp file, download the segment into it (resume enabled), read it
back, decrypt when both key and IV are present, and hand the chunk to the
conduit (modelled as the returned value, appended by the caller).  The temp
file is scoped: it is removed on every exit path when it goes out of scope,
including the download-failure and decryption-failure paths. -/
def parse_segment (env : Env) (frag : MediaSegment) (key iv : Option Bytes) : M Bytes :=
  M.bind (M.log Ev.tmpCreate) fun _ =>
  M.bind (M.log (Ev.segFetch frag.uri)) fun _ =>
  match env.segDownload frag.uri with
  | Except.error _ => M.bind (M.log Ev.tmpRemove) fun _ => M.fail (Failure.err Err.httpx)
  | Except.ok buf =>
    match key, iv with
    | some k, some i =>
      match decrypt_hls_ts env.blockDec buf k i with
      | Except.error e => M.bind (M.log Ev.tmpRemove) fun _ => M.fail (Failure.err e)
      | Except.ok d => M.bind (M.log Ev.tmpRemove) fun _ => M.pure d
    | _, _ => M.bind (M.log Ev.tmpRemove) fun _ => M.pure buf

/-- Step 1 of `parse_media_playlist` (src/hls/hls.rs, lines 228-256): the
playlist-level key/IV from the FIRST segment.  Only when the first segment
has a key tag with method AES-128 and a URI is the key fetched; a fetch
error propagates as `Error::Http`, a body shorter than 16 bytes is
`Error::DecryptedError`, otherwise exactly the first 16 bytes are the key
and the IV is parsed (a panic when malformed) or defaults to 16 zero
bytes. -/
def playlist_key_iv (env : Env) (pl : MediaPlaylist) : M (Option Bytes × Option Bytes) :=
  match pl.segments with
  | [] => M.pure (none, none)
  | first :: _ =>
    match first.key with
    | none => M.pure (none, none)
    | some key_item =>
      match key_item.method with
      | KeyMethod.aes128 =>
        match key_item.uri with
        | none => M.pure (none, none)
        | some uri =>
          M.bind (M.log (Ev.keyFetch uri)) fun _ =>
          match env.httpGet uri with
          | Except.error _ => M.fail (Failure.err Err.http)
          | Except.ok key_bytes =>
            if key_bytes.length < 16 then M.fail (Failure.err Err.decrypted)
            else
              match key_item.iv with
              | some iv_str =>
                match parse_iv iv_str with
                | none => M.fail Failure.panic
                | some iv => M.pure (some (key_bytes.take 16), some iv)
              | none => M.pure (some (key_bytes.take 16), some (List.replicate 16 0))
      | _ => M.pure (none, none)

/-- The per-segment key resolution in the download loop (src/hls/hls.rs,
lines 315-342): when the segment has its own key tag with a URI and method
AES-128, its key is fetched; a body of at least 16 bytes gives the segment
its own key (first 16 bytes) and IV (parsed, or zeroes), while a shorter
body falls back to the playlist-level key/IV without failing.  A missing
tag, missing URI, or non-AES-128 method also falls back, without any
fetch. -/
def seg_key_resolve (env : Env) (plKey plIv : Option Bytes) (f : MediaSegment) :
    M (Option Bytes × Option Bytes) :=
  match f.key with
  | some k =>
    match k.uri with
    | some uri =>
      match k.method with
      | KeyMethod.aes128 =>
        M.bind (M.log (Ev.keyFetch uri)) fun _ =>
        match env.httpGet uri with
        | Except.error _ => M.fail (Failure.err Err.http)
        | Except.ok key_bytes =>
          if 16 ≤ key_bytes.length then
            match k.iv with
            | some iv_str =>
              match parse_iv iv_str with
              | none => M.fail Failure.panic
              | some seg_iv => M.pure (some (key_bytes.take 16), some seg_iv)
            | none => M.pure (some (key_bytes.take 16), some (List.replicate 16 0))
          else M.pure (plKey, plIv)
      | _ => M.pure (plKey, plIv)
    | none => M.pure (plKey, plIv)
  | none => M.pure (plKey, plIv)

/-- Step 6 of `parse_media_playlist` (src/hls/hls.rs, lines 302-355): the
segments are processed strictly in playlist order, one at a time; each
resolves its key, is downloaded, decrypted and pushed.  The returned list
is the sequence of chunks pushed into the conduit, in push order. -/
def process_segments (env : Env) (plKey plIv : Option Bytes) :
    List MediaSegment → M (List Bytes)
  | [] => M.pure []
  | f :: rest =>
    M.bind (seg_key_resolve env plKey plIv f) fun ki =>
    M.bind (parse_segment env f ki.1 ki.2) fun chunk =>
    M.bind (process_segments env plKey plIv rest) fun more =>
    M.pure (chunk :: more)

/-- The downloader's `parse_media_playlist` (src/hls/hls.rs, lines 222-372):
establish the playlist-level key, spawn the sink (ffmpeg) and the writer
task, stream every segment, then drop the sender and wait for the sink.
The source contains no kill of the spawned child on any path and does not
set kill-on-drop, so no `Ev.killSink` is ever emitted; on the success path
the child is waited for (`Ev.waitSink`). -/
def parse_media_playlist (env : Env) (pl : MediaPlaylist) : M (List Bytes) :=
  M.bind (playlist_key_iv env pl) fun ki =>
  M.bind (M.log Ev.spawnSink) fun _ =>
  M.bind (process_segments env ki.1 ki.2 pl.segments) fun chunks =>
  M.bind (M.log Ev.waitSink) fun _ =>
  M.pure chunks

/-- Rust `Iterator::max_by` over the variants with `a.bandwidth.cmp(&b.bandwidth)`
(src/hls/hls.rs, lines 403-407).  `max_by` folds `cmp::max_by`, which returns
its SECOND argument when the comparison is equal, so among equal maxima the
last one in declaration order is returned; `none` on an empty iterator
(where the source then panics via `unwrap`). -/
def rustMaxBy (l : List VariantStream) : Option VariantStream :=
  match l with
  | [] => none
  | v :: vs => some (vs.foldl (fun acc y => if acc.bandwidth ≤ y.bandwidth then y else acc) v)

/-- The downloader's `download_playlist` loop (src/hls/hls.rs, lines 383-425),
with `parse` standing for the external `m3u8_rs::parse_playlist` (whose
failure the source unwraps: a panic) and `fuel` bounding the unbounded Rust
`loop` for the model only.  A media playlist is handed to
`parse_media_playlist`; a master playlist selects the variant via `max_by`
on bandwidth (panicking when there are no variants) and loops on its URI. -/
def download_playlist (env : Env) (parse : Bytes → Option Playlist) :
    Nat → String → M (List Bytes)
  | 0, _ => M.fail Failure.fuel
  | n + 1, url =>
    match env.httpGet url with
    | Except.error _ => M.fail (Failure.err Err.http)
    | Except.ok payload =>
      match parse payload with
      | none => M.fail Failure.panic
      | some (Playlist.media pl) => parse_media_playlist env pl
      | some (Playlist.master mp) =>
        match rustMaxBy mp.variants with
        | none => M.fail Failure.panic
        | some target => download_playlist env parse n target.uri

/-- An HTTP response for the transfer model: status code and the body as the
stream of chunks it arrives in. -/
structure HttpResp where
  status : Nat
  chunks : List Bytes

/-- The `HttpXClient::download` transfer (src/httpx/client.rs, lines
123-198).  `respond` is the server: given the requested range start (or
`none` for a plain request) it returns a response, `none` modelling a send
failure.  `dest` is the destination file (`none`: does not exist).  Returns
the range request that was made and the final file contents.  Statuses of
400 and above fail `error_for_status_ref`; when a range was requested but
the status is not 206 the code resets to a full download with truncation. -/
def download (respond : Option Nat → Option HttpResp) (resume : Bool)
    (dest : Option Bytes) : Except Unit (Option Nat × Bytes) :=
  let downloaded0 : Nat :=
    match dest with
    | some d => if resume then d.length else 0
    | none => 0
  let rangeReq : Option Nat := if resume ∧ 0 < downloaded0 then some downloaded0 else none
  match respond rangeReq with
  | none => Except.error ()
  | some resp =>
    if 400 ≤ resp.status then Except.error ()
    else
      let mode_append : Bool :=
        if resume ∧ 0 < downloaded0 ∧ resp.status ≠ 206 then false
        else decide (0 < downloaded0)
      let init : Bytes := if mode_append then dest.getD [] else []
      Except.ok (rangeReq, init ++ resp.chunks.flatten)

/-- State of the bounded FIFO conduit between the producer loop and the
writer task (tokio mpsc channel of capacity 100, src/hls/hls.rs, line 259):
the chunks the producer has not yet pushed, the buffered chunks in flight,
and the chunks the consumer has already received and written to the sink,
in write order. -/
structure ChanState where
  toSend : List Bytes
  buf : List Bytes
  received : List Bytes
deriving DecidableEq

/-- One scheduler step of the producer/consumer pair: a send suspends until
the buffer is below capacity and appends at the back; a receive takes from
the front (FIFO) and the consumer immediately writes the chunk to the
sink. -/
inductive ChanStep (cap : Nat) : ChanState → ChanState → Prop
  | send (c : Bytes) (rest buf recd : List Bytes) :
      buf.length < cap →
      ChanStep cap ⟨c :: rest, buf, recd⟩ ⟨rest, buf ++ [c], recd⟩
  | recv (ts : List Bytes) (c : Bytes) (bs recd : List Bytes) :
      ChanStep cap ⟨ts, c :: bs, recd⟩ ⟨ts, bs, recd ++ [c]⟩

/-- Any interleaving of producer and consumer steps. -/
def ChanReach (cap : Nat) : ChanState → ChanState → Prop :=
  Relation.ReflTransGen (ChanStep cap)

/-- Events of a sequenced computation: those of the first part, then those of
the continuation when the first part succeeded. -/
theorem M.bind_fst {α β : Type} (x : M α) (f : α → M β) :
    (M.bind x f).1 = x.1 ++ (match x.2 with
      | Except.ok a => (f a).1
      | Except.error _ => []) := by
  rcases x with ⟨l, r⟩
  cases r <;> simp [M.bind]

/-- Inversion of a successful bind. -/
theorem M.bind_ok {α β : Type} {x : M α} {f : α → M β} {l : List Ev} {b : β}
    (h : M.bind x f = (l, Except.ok b)) :
    ∃ l1 a l2, x = (l1, Except.ok a) ∧ f a = (l2, Except.ok b) ∧ l = l1 ++ l2 := by
  rcases x with ⟨l1, r⟩
  cases r with
  | error e =>
    simp only [M.bind] at h
    injection h with h1 h2
    simp at h2
  | ok a =>
    simp only [M.bind] at h
    injection h with h1 h2
    exact ⟨l1, a, (f a).1, rfl, by rw [← h2, Prod.mk.eta], h1.symm⟩

/-- Every run of `parse_segment` creates exactly one temp file, fetches the
segment once, and removes the temp file, on every exit path. -/
theorem parse_segment_events (env : Env) (f : MediaSegment) (k i : Option Bytes) :
    (parse_segment env f k i).1 = [Ev.tmpCreate, Ev.segFetch f.uri, Ev.tmpRemove] := by
  unfold parse_segment
  repeat' split
  all_goals simp [M.bind, M.log, M.fail, M.pure]

/-- Key resolution for one segment only ever logs key fetches. -/
theorem seg_key_resolve_events (env : Env) (pk pi : Option Bytes) (f : MediaSegment) :
    ∀ e ∈ (seg_key_resolve env pk pi f).1, ∃ u, e = Ev.keyFetch u := by
  unfold seg_key_resolve
  repeat' split
  all_goals simp [M.bind, M.log, M.fail, M.pure]

/-- The playlist-level key establishment only ever logs key fetches. -/
theorem playlist_key_iv_events (env : Env) (pl : MediaPlaylist) :
    ∀ e ∈ (playlist_key_iv env pl).1, ∃ u, e = Ev.keyFetch u := by
  unfold playlist_key_iv
  repeat' split
  all_goals simp [M.bind, M.log, M.fail, M.pure]

/-- A log consisting only of key fetches contains no sink kill and no
temp-file events. -/
theorem keyfetch_only_clean {l : List Ev} (h : ∀ e ∈ l, ∃ u, e = Ev.keyFetch u) :
    Ev.killSink ∉ l ∧ l.count Ev.tmpCreate = 0 ∧ l.count Ev.tmpRemove = 0 := by
  refine ⟨?_, ?_, ?_⟩
  · intro hmem
    rcases h _ hmem with ⟨u, hu⟩
    simp at hu
  · rw [List.count_eq_zero]
    intro hmem
    rcases h _ hmem with ⟨u, hu⟩
    simp at hu
  · rw [List.count_eq_zero]
    intro hmem
    rcases h _ hmem with ⟨u, hu⟩
    simp at hu

/-- Along the whole segment loop, no kill of the sink is ever recorded and
temp-file creations and removals balance, whether the loop completes or
aborts with a fatal error. -/
theorem process_segments_clean (env : Env) (pk pi : Option Bytes) :
    ∀ segs : List MediaSegment,
      Ev.killSink ∉ (process_segments env pk pi segs).1 ∧
      (process_segments env pk pi segs).1.count Ev.tmpCreate =
        (process_segments env pk pi segs).1.count Ev.tmpRemove := by
  intro segs
  induction segs with
  | nil => simp [process_segments, M.pure]
  | cons f rest ih =>
    have hkf := seg_key_resolve_events env pk pi f
    rcases hskr : seg_key_resolve env pk pi f with ⟨l1, r1⟩
    rw [hskr] at hkf
    obtain ⟨hk1, hc1, hr1⟩ := keyfetch_only_clean hkf
    cases r1 with
    | error e =>
      simp [process_segments, M.bind, hskr, hk1, hc1, hr1]
    | ok ki =>
      have hev := parse_segment_events env f ki.1 ki.2
      rcases hps : parse_segment env f ki.1 ki.2 with ⟨l2, r2⟩
      rw [hps] at hev
      cases r2 with
      | error e =>
        simp [process_segments, M.bind, hskr, hps, hev, hk1, hc1, hr1, List.count_append,
          List.count_cons]
      | ok chunk =>
        rcases hrest : process_segments env pk pi rest with ⟨l3, r3⟩
        rw [hrest] at ih
        cases r3 with
        | error e =>
          simp only [process_segments, M.bind, hskr, hps, hrest] at *
          simp_all [List.count_append, List.count_cons, hev]
        | ok more =>
          simp only [process_segments, M.bind, hskr, hps, hrest, M.pure] at *
          simp_all [List.count_append, List.count_cons, hev]

/-- Playlist used for the C9 counterexample: one unencrypted segment. -/
def c9pl : MediaPlaylist := ⟨[⟨"s1", none⟩]⟩

/-- Environment for the C9 counterexample: the segment download fails. -/
def c9env : Env :=
  ⟨fun _ => Except.ok [], fun _ => Except.error (), fun _ b => b⟩

/-- C9 counterexample: a segment transfer fails after the sink has been
spawned; the pipeline aborts with a fatal error, yet the sink subprocess is
never terminated (no kill event exists on the error path), contradicting
the claim that every fatal exit path terminates the sink. -/
theorem C9_sink_not_killed_counterexample :
    (parse_media_playlist c9env c9pl).2 = Except.error (Failure.err Err.httpx) ∧
    Ev.spawnSink ∈ (parse_media_playlist c9env c9pl).1 ∧
    Ev.killSink ∉ (parse_media_playlist c9env c9pl).1 := by
  refine ⟨rfl, ?_, ?_⟩ <;> decide

/-- C9 amended: on every exit path of `parse_media_playlist` — fatal error
or success — the per-segment temporary files are all removed (they are
scoped), but the code never terminates the sink subprocess: no kill is
performed on any path, so a fatal error propagates with the spawned sink
left running, and the partially written output artifact is not removed. -/
theorem C9_cleanup_amended :
    ∀ (env : Env) (pl : MediaPlaylist),
      Ev.killSink ∉ (parse_media_playlist env pl).1 ∧
      (parse_media_playlist env pl).1.count Ev.tmpCreate =
        (parse_media_playlist env pl).1.count Ev.tmpRemove := by
  intro env pl
  have hpk := playlist_key_iv_events env pl
  rcases hpki : playlist_key_iv env pl with ⟨l1, r1⟩
  rw [hpki] at hpk
  obtain ⟨hk1, hc1, hr1⟩ := keyfetch_only_clean hpk
  cases r1 with
  | error e =>
    simp [parse_media_playlist, M.bind, hpki, hk1, hc1, hr1]
  | ok ki =>
    obtain ⟨hk2, hc2⟩ := process_segments_clean env ki.1 ki.2 pl.segments
    rcases hps : process_segments env ki.1 ki.2 pl.segments with ⟨l2, r2⟩
    rw [hps] at hk2 hc2
    cases r2 with
    | error e =>
      simp [parse_media_playlist, M.bind, M.log, hpki, hps, hk1, hc1, hr1, hk2, hc2,
        List.count_append, List.count_cons]
    | ok chunks =>
      simp [parse_media_playlist, M.bind, M.log, M.pure, hpki, hps, hk1, hc1, hr1, hk2, hc2,
        List.count_append, List.count_cons]

/-- Conservation along one conduit step: the multiset order
received ++ buffered ++ unsent never changes. -/
theorem chanStep_conserve {cap : Nat} {s t : ChanState} (h : ChanStep cap s t) :
    t.received ++ t.buf ++ t.toSend = s.received ++ s.buf ++ s.toSend := by
  cases h with
  | send c rest buf recd hlt => simp
  | recv ts c bs recd => simp

/-- Conservation along any interleaving. -/
theorem chanReach_conserve {cap : Nat} {s t : ChanState} (h : ChanReach cap s t) :
    t.received ++ t.buf ++ t.toSend = s.received ++ s.buf ++ s.toSend := by
  induction h with
  | refl => rfl
  | tail hab hbc ih => rw [chanStep_conserve hbc, ih]

/-- The conduit never holds more than its capacity. -/
theorem chanReach_buf_le {cap : Nat} {s t : ChanState} (h : ChanReach cap s t)
    (hs : s.buf.length ≤ cap) : t.buf.length ≤ cap := by
  induction h with
  | refl => exact hs
  | tail hab hbc ih =>
    cases hbc with
    | send c rest buf recd hlt => simpa using hlt
    | recv ts c bs recd =>
      simp only [List.length] at ih ⊢
      omega

/-- On success, the loop yields exactly one chunk per segment. -/
theorem process_segments_ok_length (env : Env) (pk pi : Option Bytes) :
    ∀ (segs : List MediaSegment) (l : List Ev) (cs : List Bytes),
      process_segments env pk pi segs = (l, Except.ok cs) → cs.length = segs.length := by
  intro segs
  induction segs with
  | nil =>
    intro l cs h
    simp only [process_segments, M.pure] at h
    injection h with h1 h2
    injection h2 with h3
    simp [← h3]
  | cons f rest ih =>
    intro l cs h
    simp only [process_segments] at h
    obtain ⟨l1, ki, l2, hki, h2, hl⟩ := M.bind_ok h
    obtain ⟨l3, chunk, l4, hchunk, h4, hl2⟩ := M.bind_ok h2
    obtain ⟨l5, more, l6, hmore, h6, hl4⟩ := M.bind_ok h4
    simp only [M.pure] at h6
    injection h6 with h7 h8
    injection h8 with h9
    simp [← h9, ih _ _ hmore]

/-- C1: for every media playlist whose pipeline completes, the producer has
pushed exactly one decrypted chunk per segment into the bounded conduit
(capacity 100), in playlist order, and under EVERY interleaving of the
producer and consumer tasks the conduit never exceeds its capacity and a
drained run delivers to the sink exactly that chunk sequence — no
reordering or interleaving of different segments' bytes, regardless of
conduit fill level. -/
theorem C1_ordered_delivery :
    ∀ (env : Env) (pl : MediaPlaylist) (evs : List Ev) (chunks : List Bytes),
      parse_media_playlist env pl = (evs, Except.ok chunks) →
      chunks.length = pl.segments.length ∧
      ∀ s : ChanState, ChanReach 100 ⟨chunks, [], []⟩ s →
        s.buf.length ≤ 100 ∧ (s.toSend = [] → s.buf = [] → s.received = chunks) := by
  intro env pl evs chunks h
  simp only [parse_media_playlist] at h
  obtain ⟨l1, ki, l2, hki, h2, hl⟩ := M.bind_ok h
  obtain ⟨l3, u3, l4, hlog, h4, hl2⟩ := M.bind_ok h2
  obtain ⟨l5, cs, l6, hproc, h6, hl4⟩ := M.bind_ok h4
  obtain ⟨l7, u7, l8, hlog2, h8, hl6⟩ := M.bind_ok h6
  simp only [M.pure] at h8
  injection h8 with h9 h10
  injection h10 with h11
  subst h11
  constructor
  · exact process_segments_ok_length env ki.1 ki.2 pl.segments l5 cs hproc
  · intro s hs
    refine ⟨chanReach_buf_le hs (by simp), ?_⟩
    intro hts hbuf
    have hcons := chanReach_conserve hs
    simp [hts, hbuf] at hcons
    simpa using hcons

/-- Playlist for the C1 witness: a single unencrypted segment. -/
def c1pl : MediaPlaylist := ⟨[⟨"s", none⟩]⟩

/-- Environment for the C1 witness: the segment body is [1, 2, 3]. -/
def c1env : Env :=
  ⟨fun _ => Except.ok [], fun _ => Except.ok [1, 2, 3], fun _ b => b⟩

/-- Witness for C1 at a concrete playlist, environment and conduit trace. -/
theorem C1_ordered_delivery_witness :
    (⟨[], [], [[1, 2, 3]]⟩ : ChanState).buf.length ≤ 100 ∧
    (⟨[], [], [[1, 2, 3]]⟩ : ChanState).received = [[1, 2, 3]] := by
  have h := C1_ordered_delivery c1env c1pl
    [Ev.spawnSink, Ev.tmpCreate, Ev.segFetch "s", Ev.tmpRemove, Ev.waitSink] [[1, 2, 3]] rfl
  have s1 : ChanStep 100 ⟨[[1, 2, 3]], [], []⟩ ⟨[], [[1, 2, 3]], []⟩ :=
    ChanStep.send [1, 2, 3] [] [] [] (by simp)
  have s2 : ChanStep 100 ⟨[], [[1, 2, 3]], []⟩ ⟨[], [], [[1, 2, 3]]⟩ :=
    ChanStep.recv [] [1, 2, 3] [] []
  have hreach : ChanReach 100 ⟨[[1, 2, 3]], [], []⟩ ⟨[], [], [[1, 2, 3]]⟩ :=
    Relation.ReflTransGen.tail (Relation.ReflTransGen.single s1) s2
  have h2 := (h.2) ⟨[], [], [[1, 2, 3]]⟩ hreach
  exact ⟨h2.1, h2.2 rfl rfl⟩

/-- The fold underlying `max_by`: it lands on an element that attains the
maximum bandwidth and is the LAST one attaining it (everything after it is
strictly below). -/
theorem rustMaxBy_foldl (vs : List VariantStream) :
    ∀ v0 : VariantStream,
      ∃ v l1 l2,
        vs.foldl (fun acc y => if acc.bandwidth ≤ y.bandwidth then y else acc) v0 = v ∧
        v0 :: vs = l1 ++ v :: l2 ∧
        (∀ w ∈ v0 :: vs, w.bandwidth ≤ v.bandwidth) ∧
        (∀ w ∈ l2, w.bandwidth < v.bandwidth) := by
  induction vs with
  | nil =>
    intro v0
    exact ⟨v0, [], [], rfl, rfl, by simp, by simp⟩
  | cons y rest ih =>
    intro v0
    by_cases h : v0.bandwidth ≤ y.bandwidth
    · obtain ⟨v, l1, l2, hfold, hsplit, hbound, hstrict⟩ := ih y
      refine ⟨v, v0 :: l1, l2, ?_, ?_, ?_, hstrict⟩
      · simp only [List.foldl_cons, if_pos h]
        exact hfold
      · rw [List.cons_append, ← hsplit]
      · intro w hw
        rcases List.mem_cons.mp hw with rfl | hw2
        · exact le_trans h (hbound y (List.mem_cons_self y rest))
        · exact hbound w hw2
    · obtain ⟨v, l1, l2, hfold, hsplit, hbound, hstrict⟩ := ih v0
      cases l1 with
      | nil =>
        simp only [List.nil_append] at hsplit
        injection hsplit with hv hrest
        subst hv
        subst hrest
        refine ⟨v0, [], y :: rest, ?_, rfl, ?_, ?_⟩
        · simp only [List.foldl_cons, if_neg h]
          exact hfold
        · intro w hw
          rcases List.mem_cons.mp hw with rfl | hw2
          · exact le_refl w.bandwidth
          · rcases List.mem_cons.mp hw2 with rfl | hw3
            · omega
            · exact hbound w (List.mem_cons_of_mem v0 hw3)
        · intro w hw
          rcases List.mem_cons.mp hw with rfl | hw2
          · omega
          · exact hstrict w hw2
      | cons z l1t =>
        simp only [List.cons_append] at hsplit
        injection hsplit with hz hrest
        refine ⟨v, v0 :: y :: l1t, l2, ?_, ?_, ?_, hstrict⟩
        · simp only [List.foldl_cons, if_neg h]
          exact hfold
        · simp [hrest]
        · intro w hw
          have hv0 : v0.bandwidth ≤ v.bandwidth :=
            hbound v0 (List.mem_cons_self v0 rest)
          rcases List.mem_cons.mp hw with rfl | hw2
          · exact hv0
          · rcases List.mem_cons.mp hw2 with rfl | hw3
            · omega
            · exact hbound w (List.mem_cons_of_mem v0 hw3)

/-- First variant of the C2 counterexample master playlist. -/
def c2a : VariantStream := ⟨"low", 100⟩

/-- Second variant of the C2 counterexample, with the SAME bandwidth. -/
def c2b : VariantStream := ⟨"alt", 100⟩

/-- Master playlist for C2 with a bandwidth tie. -/
def c2mp : MasterPlaylist := ⟨[c2a, c2b]⟩

/-- Environment for the C2 witness (only the master fetch is exercised). -/
def c2env : Env :=
  ⟨fun _ => Except.ok [], fun _ => Except.error (), fun _ b => b⟩

/-- Parser oracle for the C2 witness: every body parses to the tied master. -/
def c2parse : Bytes → Option Playlist := fun _ => some (Playlist.master c2mp)

/-- C2 counterexample: with two variants of equal bandwidth the code selects
the SECOND (last) one, not the first as the claim states — Rust `max_by`
returns the last of equally-maximum elements. -/
theorem C2_tie_counterexample :
    rustMaxBy [c2a, c2b] = some c2b ∧ c2b ≠ c2a := by
  constructor
  · rfl
  · intro hcontra
    have : c2b.uri = c2a.uri := by rw [hcontra]
    simp [c2a, c2b] at this

/-- C2 amended: resolution selects a variant attaining the maximum declared
bandwidth, and among several variants sharing that maximum it selects the
LAST one in declaration order (everything after the selected variant is
strictly below the maximum); resolution then continues against the selected
variant's URI. -/
theorem C2_last_max_selected :
    (∀ l : List VariantStream, l ≠ [] →
      ∃ v l1 l2,
        rustMaxBy l = some v ∧ l = l1 ++ v :: l2 ∧
        (∀ w ∈ l, w.bandwidth ≤ v.bandwidth) ∧
        (∀ w ∈ l2, w.bandwidth < v.bandwidth)) ∧
    (∀ (env : Env) (parse : Bytes → Option Playlist) (n : Nat) (url : String)
        (payload : Bytes) (mp : MasterPlaylist) (v : VariantStream),
      env.httpGet url = Except.ok payload →
      parse payload = some (Playlist.master mp) →
      rustMaxBy mp.variants = some v →
      download_playlist env parse (n + 1) url = download_playlist env parse n v.uri) := by
  constructor
  · intro l hne
    cases l with
    | nil => exact absurd rfl hne
    | cons v0 vs =>
      obtain ⟨v, l1, l2, hfold, hsplit, hbound, hstrict⟩ := rustMaxBy_foldl vs v0
      exact ⟨v, l1, l2, by simp [rustMaxBy, hfold], hsplit, hbound, hstrict⟩
  · intro env parse n url payload mp v h1 h2 h3
    simp [download_playlist, h1, h2, h3]

/-- Witness for C2 at the concrete tied master playlist. -/
theorem C2_last_max_selected_witness :
    (∃ v l1 l2,
      rustMaxBy [c2a, c2b] = some v ∧ [c2a, c2b] = l1 ++ v :: l2 ∧
      (∀ w ∈ [c2a, c2b], w.bandwidth ≤ v.bandwidth) ∧
      (∀ w ∈ l2, w.bandwidth < v.bandwidth)) ∧
    download_playlist c2env c2parse 1 "u" = download_playlist c2env c2parse 0 c2b.uri := by
  constructor
  · exact C2_last_max_selected.1 [c2a, c2b] (by simp)
  · exact C2_last_max_selected.2 c2env c2parse 0 "u" [] c2mp c2b rfl rfl rfl

/-- C3: with resume enabled and a destination already holding L > 0 bytes of
the source, the transfer requests a byte range starting at L; when the
server answers 206 with the remainder, the final file is exactly the
T-byte source — the first L bytes untouched, the rest appended; when the
server answers anything other than 206 (but below 400) with the full body,
the destination is truncated and rewritten, again ending at exactly T
bytes. -/
theorem C3_resume_transfer :
    ∀ (respond : Option Nat → Option HttpResp) (src : Bytes) (L : Nat)
      (st : Nat) (cks : List Bytes),
      0 < L → L ≤ src.length →
      respond (some L) = some ⟨st, cks⟩ → st < 400 →
      ((st = 206 → cks.flatten = src.drop L →
         download respond true (some (src.take L)) = Except.ok (some L, src)) ∧
       (st ≠ 206 → cks.flatten = src →
         download respond true (some (src.take L)) = Except.ok (some L, src))) := by
  intro respond src L st cks hL hLT hresp hst
  have hlen : (src.take L).length = L := by
    simp [List.length_take]
    omega
  constructor
  · intro h206 hbody
    subst h206
    simp only [download, hlen, if_true, true_and]
    rw [if_pos hL, hresp]
    simp [hL, hbody, List.take_append_drop, (show ¬ (400 : Nat) ≤ 206 by omega)]
  · intro hne hbody
    simp only [download, hlen, if_true, true_and]
    rw [if_pos hL, hresp]
    simp [hL, hne, hbody, (show ¬ (400 : Nat) ≤ st by omega)]

/-- Server for the C3 witness: honors the range request from offset 2. -/
def c3respond : Option Nat → Option HttpResp :=
  fun r =>
    match r with
    | some _ => some ⟨206, [[30, 40], [50]]⟩
    | none => some ⟨200, [[10, 20, 30, 40, 50]]⟩

/-- Server for the C3 witness fallback case: ignores the range request. -/
def c3respondFull : Option Nat → Option HttpResp :=
  fun _ => some ⟨200, [[10, 20, 30, 40, 50]]⟩

/-- Witness for C3: resuming [10,20] against the 5-byte source [10,..,50]
gives exactly the source, both when the server honors the range and when it
ignores it. -/
theorem C3_resume_transfer_witness :
    download c3respond true (some [10, 20]) = Except.ok (some 2, [10, 20, 30, 40, 50]) ∧
    download c3respondFull true (some [10, 20]) = Except.ok (some 2, [10, 20, 30, 40, 50]) := by
  constructor
  · have h := C3_resume_transfer c3respond [10, 20, 30, 40, 50] 2 206 [[30, 40], [50]]
      (by decide) (by decide) rfl (by decide)
    exact h.1 rfl rfl
  · have h := C3_resume_transfer c3respondFull [10, 20, 30, 40, 50] 2 200 [[10, 20, 30, 40, 50]]
      (by decide) (by decide) rfl (by decide)
    exact h.2 (by decide) rfl

/-- With enough fuel, a buffer whose length is not a multiple of 16 cannot
be split into blocks. -/
theorem toBlocksAux_not_multiple :
    ∀ (fuel : Nat) (l : Bytes), l.length ≤ fuel → l.length % 16 ≠ 0 →
      toBlocksAux fuel l = none := by
  intro fuel
  induction fuel with
  | zero =>
    intro l hle hmod
    cases l with
    | nil => simp at hmod
    | cons a tl => simp at hle
  | succ fuel ih =>
    intro l hle hmod
    cases l with
    | nil => simp at hmod
    | cons a tl =>
      simp only [toBlocksAux]
      by_cases h16 : 16 ≤ (a :: tl).length
      · rw [if_pos h16]
        have hdrop : ((a :: tl).drop 16).length ≤ fuel := by
          simp only [List.length_drop]
          simp at hle ⊢
          omega
        have hdm : ((a :: tl).drop 16).length % 16 ≠ 0 := by
          simp only [List.length_drop]
          omega
        rw [ih _ hdrop hdm]
      · rw [if_neg h16]

/-- A buffer whose length is not a multiple of 16 cannot be split into
blocks. -/
theorem toBlocks_not_multiple (l : Bytes) (h : l.length % 16 ≠ 0) :
    toBlocks l = none :=
  toBlocksAux_not_multiple l.length l le_rfl h

/-- Successful PKCS7 unpadding inverts: the buffer is the output followed by
n copies of the pad byte n, 1 ≤ n ≤ 16. -/
theorem pkcs7Unpad_some {data out : Bytes} (h : pkcs7Unpad data = some out) :
    ∃ n, 1 ≤ n ∧ n ≤ 16 ∧ data = out ++ List.replicate n n := by
  unfold pkcs7Unpad at h
  cases hlast : data.getLast? with
  | none =>
    simp only [hlast] at h
    simp at h
  | some n =>
    simp only [hlast] at h
    by_cases hn : n = 0 ∨ 16 < n
    · rw [if_pos hn] at h
      simp at h
    · rw [if_neg hn] at h
      by_cases hpad : data.drop (data.length - n) = List.replicate n n
      · rw [if_pos hpad] at h
        injection h with hout
        refine ⟨n, by omega, by omega, ?_⟩
        rw [← hout, ← hpad, List.take_append_drop]
      · rw [if_neg hpad] at h
        simp at h

/-- C4: with both key and IV present, decryption runs AES-128-CBC with PKCS7
unpadding over the full input — a length that is not a multiple of 16
fails, invalid final padding fails (both with `DecryptedError` and no
partial output), and a success is exactly the full CBC plaintext minus its
validated padding; with key or IV absent, the segment bytes pass to the
conduit unchanged. -/
theorem C4_decrypt_errors :
    (∀ (dec : Bytes → Bytes → Bytes) (enc key iv : Bytes),
      enc.length % 16 ≠ 0 → decrypt_hls_ts dec enc key iv = Except.error Err.decrypted) ∧
    (∀ (dec : Bytes → Bytes → Bytes) (enc key iv : Bytes) (blocks : List Bytes),
      toBlocks enc = some blocks →
      pkcs7Unpad (List.flatten (cbcChain (dec key) iv blocks)) = none →
      decrypt_hls_ts dec enc key iv = Except.error Err.decrypted) ∧
    (∀ (dec : Bytes → Bytes → Bytes) (enc key iv out : Bytes),
      decrypt_hls_ts dec enc key iv = Except.ok out →
      ∃ blocks n, toBlocks enc = some blocks ∧ 1 ≤ n ∧ n ≤ 16 ∧
        List.flatten (cbcChain (dec key) iv blocks) = out ++ List.replicate n n) ∧
    (∀ (env : Env) (f : MediaSegment) (buf : Bytes) (key iv : Option Bytes),
      env.segDownload f.uri = Except.ok buf → (key = none ∨ iv = none) →
      parse_segment env f key iv =
        ([Ev.tmpCreate, Ev.segFetch f.uri, Ev.tmpRemove], Except.ok buf)) := by
  refine ⟨?_, ?_, ?_, ?_⟩
  · intro dec enc key iv h
    simp [decrypt_hls_ts, toBlocks_not_multiple enc h]
  · intro dec enc key iv blocks htb hpu
    simp [decrypt_hls_ts, htb, hpu]
  · intro dec enc key iv out h
    unfold decrypt_hls_ts at h
    cases htb : toBlocks enc with
    | none =>
      simp only [htb] at h
      simp at h
    | some blocks =>
      simp only [htb] at h
      cases hpu : pkcs7Unpad (List.flatten (cbcChain (dec key) iv blocks)) with
      | none =>
        simp only [hpu] at h
        simp at h
      | some out2 =>
        simp only [hpu] at h
        injection h with hout
        obtain ⟨n, h1, h2, h3⟩ := pkcs7Unpad_some hpu
        exact ⟨blocks, n, rfl, h1, h2, by rw [h3, hout]⟩
  · intro env f buf key iv hdl hko
    unfold parse_segment
    rw [hdl]
    rcases hko with rfl | rfl
    · simp [M.bind, M.log, M.pure]
    · cases key <;> simp [M.bind, M.log, M.pure]

/-- Witness for C4: a 1-byte ciphertext and a wrong-padding 16-byte
ciphertext both fail; a correctly padded block decrypts to the empty
plaintext; an unencrypted segment passes through unchanged. -/
theorem C4_decrypt_errors_witness :
    decrypt_hls_ts (fun _ b => b) [7] [] [] = Except.error Err.decrypted ∧
    decrypt_hls_ts (fun _ b => b) (List.replicate 16 0) [] (List.replicate 16 0) =
      Except.error Err.decrypted ∧
    (∃ blocks n, toBlocks (List.replicate 16 16) = some blocks ∧ 1 ≤ n ∧ n ≤ 16 ∧
      List.flatten (cbcChain ((fun _ b => b) ([] : Bytes)) (List.replicate 16 0) blocks) =
        [] ++ List.replicate n n) ∧
    parse_segment c1env ⟨"s", none⟩ none none =
      ([Ev.tmpCreate, Ev.segFetch "s", Ev.tmpRemove], Except.ok [1, 2, 3]) := by
  refine ⟨?_, ?_, ?_, ?_⟩
  · exact C4_decrypt_errors.1 (fun _ b => b) [7] [] [] (by decide)
  · exact C4_decrypt_errors.2.1 (fun _ b => b) (List.replicate 16 0) [] (List.replicate 16 0)
      [List.replicate 16 0] (by decide) (by decide)
  · exact C4_decrypt_errors.2.2.1 (fun _ b => b) (List.replicate 16 16) []
      (List.replicate 16 0) [] rfl
  · exact C4_decrypt_errors.2.2.2 c1env ⟨"s", none⟩ [1, 2, 3] none none rfl (Or.inl rfl)

/-- C5: a segment is processed with its own key/IV exactly when it carries a
key tag with a URI and method AES-128 and the fetched key body has at least
16 bytes (key = first 16 bytes of the response; IV = parsed, or 16 zero
bytes when absent); in every other case — no key tag, no URI, non-AES-128
method, or a short key body — it falls back to the playlist-level key/IV,
and in particular a short per-segment key body does NOT fail the
pipeline. -/
theorem C5_key_precedence :
    ∀ (env : Env) (plKey plIv : Option Bytes) (f : MediaSegment) (k : SegmentKey)
      (u : String) (kb : Bytes),
      (f.key = some k → k.uri = some u → k.method = KeyMethod.aes128 →
        env.httpGet u = Except.ok kb → 16 ≤ kb.length → k.iv = none →
        seg_key_resolve env plKey plIv f =
          ([Ev.keyFetch u], Except.ok (some (kb.take 16), some (List.replicate 16 0)))) ∧
      (∀ (s : String) (i16 : Bytes),
        f.key = some k → k.uri = some u → k.method = KeyMethod.aes128 →
        env.httpGet u = Except.ok kb → 16 ≤ kb.length → k.iv = some s →
        parse_iv s = some i16 →
        seg_key_resolve env plKey plIv f =
          ([Ev.keyFetch u], Except.ok (some (kb.take 16), some i16))) ∧
      (f.key = some k → k.uri = some u → k.method = KeyMethod.aes128 →
        env.httpGet u = Except.ok kb → kb.length < 16 →
        seg_key_resolve env plKey plIv f = ([Ev.keyFetch u], Except.ok (plKey, plIv))) ∧
      (f.key = none →
        seg_key_resolve env plKey plIv f = ([], Except.ok (plKey, plIv))) ∧
      (f.key = some k → k.uri = none →
        seg_key_resolve env plKey plIv f = ([], Except.ok (plKey, plIv))) ∧
      (f.key = some k → k.uri = some u → k.method ≠ KeyMethod.aes128 →
        seg_key_resolve env plKey plIv f = ([], Except.ok (plKey, plIv))) := by
  intro env plKey plIv f k u kb
  refine ⟨?_, ?_, ?_, ?_, ?_, ?_⟩
  · intro h1 h2 h3 h4 h5 h6
    simp [seg_key_resolve, h1, h2, h3, h4, h5, h6, M.bind, M.log, M.pure]
  · intro s i16 h1 h2 h3 h4 h5 h6 h7
    simp [seg_key_resolve, h1, h2, h3, h4, h5, h6, h7, M.bind, M.log, M.pure]
  · intro h1 h2 h3 h4 h5
    simp [seg_key_resolve, h1, h2, h3, h4, not_le.mpr h5, M.bind, M.log, M.pure]
  · intro h1
    simp [seg_key_resolve, h1, M.pure]
  · intro h1 h2
    simp [seg_key_resolve, h1, h2, M.pure]
  · intro h1 h2 h3
    cases hm : k.method with
    | aes128 => exact absurd hm h3
    | none => simp [seg_key_resolve, h1, h2, hm, M.pure]
    | sampleAes => simp [seg_key_resolve, h1, h2, hm, M.pure]
    | other => simp [seg_key_resolve, h1, h2, hm, M.pure]

/-- Environment for the C5 witness: key bodies of 20 bytes of value 5. -/
def c5env : Env :=
  ⟨fun _ => Except.ok (List.replicate 20 5), fun _ => Except.error (), fun _ b => b⟩

/-- Environment for the C5 witness short-key case: 8-byte key bodies. -/
def c5envShort : Env :=
  ⟨fun _ => Except.ok (List.replicate 8 9), fun _ => Except.error (), fun _ b => b⟩

/-- Segment with its own AES-128 key tag and no IV, for the C5 witness. -/
def c5seg : MediaSegment := ⟨"s", some ⟨KeyMethod.aes128, some "k", none⟩⟩

/-- Witness for C5: a long-enough per-segment key wins; a short key body
falls back to the playlist pair without failing; a segment without a key
tag falls back. -/
theorem C5_key_precedence_witness :
    seg_key_resolve c5env none none c5seg =
      ([Ev.keyFetch "k"],
        Except.ok (some ((List.replicate 20 5).take 16), some (List.replicate 16 0))) ∧
    seg_key_resolve c5envShort (some [1]) (some [2]) c5seg =
      ([Ev.keyFetch "k"], Except.ok (some [1], some [2])) ∧
    seg_key_resolve c5env (some [1]) (some [2]) ⟨"s2", none⟩ =
      ([], Except.ok (some [1], some [2])) := by
  refine ⟨?_, ?_, ?_⟩
  · exact (C5_key_precedence c5env none none c5seg ⟨KeyMethod.aes128, some "k", none⟩ "k"
      (List.replicate 20 5)).1 rfl rfl rfl rfl (by decide) rfl
  · exact (C5_key_precedence c5envShort (some [1]) (some [2]) c5seg
      ⟨KeyMethod.aes128, some "k", none⟩ "k" (List.replicate 8 9)).2.2.1
      rfl rfl rfl rfl (by decide)
  · exact (C5_key_precedence c5env (some [1]) (some [2]) ⟨"s2", none⟩
      ⟨KeyMethod.aes128, some "k", none⟩ "k" []).2.2.2.1 rfl

/-- C6: when the first segment declares an AES-128 key with a URI, a key
body shorter than 16 bytes aborts the whole pipeline with the fatal
`DecryptedError` before any segment is fetched and before the sink is even
spawned (so nothing is ever written to it); a body of at least 16 bytes
establishes exactly its first 16 bytes as the playlist-level key. -/
theorem C6_playlist_key :
    ∀ (env : Env) (pl : MediaPlaylist) (first : MediaSegment)
      (rest : List MediaSegment) (ki : SegmentKey) (u : String) (kb : Bytes),
      pl.segments = first :: rest → first.key = some ki →
      ki.method = KeyMethod.aes128 → ki.uri = some u →
      env.httpGet u = Except.ok kb →
      ((kb.length < 16 →
        parse_media_playlist env pl =
          ([Ev.keyFetch u], Except.error (Failure.err Err.decrypted)) ∧
        (∀ s, Ev.segFetch s ∉ (parse_media_playlist env pl).1) ∧
        Ev.spawnSink ∉ (parse_media_playlist env pl).1) ∧
       (16 ≤ kb.length → ki.iv = none →
        playlist_key_iv env pl =
          ([Ev.keyFetch u], Except.ok (some (kb.take 16), some (List.replicate 16 0)))) ∧
       (∀ (s : String) (i16 : Bytes), 16 ≤ kb.length → ki.iv = some s →
        parse_iv s = some i16 →
        playlist_key_iv env pl =
          ([Ev.keyFetch u], Except.ok (some (kb.take 16), some i16)))) := by
  intro env pl first rest ki u kb hsegs hkey hm huri hget
  refine ⟨?_, ?_, ?_⟩
  · intro hshort
    have hpki : playlist_key_iv env pl =
        ([Ev.keyFetch u], Except.error (Failure.err Err.decrypted)) := by
      simp [playlist_key_iv, hsegs, hkey, hm, huri, hget, hshort, M.bind, M.log, M.fail]
    have hmain : parse_media_playlist env pl =
        ([Ev.keyFetch u], Except.error (Failure.err Err.decrypted)) := by
      simp [parse_media_playlist, M.bind, hpki]
    refine ⟨hmain, ?_, ?_⟩
    · intro s
      rw [hmain]
      simp
    · rw [hmain]
      simp
  · intro hlong hiv
    simp [playlist_key_iv, hsegs, hkey, hm, huri, hget, not_lt.mpr hlong, hiv,
      M.bind, M.log, M.pure]
  · intro s i16 hlong hiv hparse
    simp [playlist_key_iv, hsegs, hkey, hm, huri, hget, not_lt.mpr hlong, hiv, hparse,
      M.bind, M.log, M.pure]

/-- Playlist for the C6 witness: first segment with an AES-128 key tag. -/
def c6pl : MediaPlaylist := ⟨[⟨"s1", some ⟨KeyMethod.aes128, some "k", none⟩⟩]⟩

/-- Environment for the C6 short-key witness: the key body has 8 bytes. -/
def c6envShort : Env :=
  ⟨fun _ => Except.ok (List.replicate 8 7), fun _ => Except.ok [], fun _ b => b⟩

/-- Environment for the C6 long-key witness: the key body has 20 bytes. -/
def c6envLong : Env :=
  ⟨fun _ => Except.ok (List.replicate 20 7), fun _ => Except.ok [], fun _ b => b⟩

/-- Witness for C6: an 8-byte playlist-level key body aborts before any
segment fetch or sink spawn; a 20-byte body yields its first 16 bytes as
the key. -/
theorem C6_playlist_key_witness :
    parse_media_playlist c6envShort c6pl =
      ([Ev.keyFetch "k"], Except.error (Failure.err Err.decrypted)) ∧
    Ev.spawnSink ∉ (parse_media_playlist c6envShort c6pl).1 ∧
    playlist_key_iv c6envLong c6pl =
      ([Ev.keyFetch "k"],
        Except.ok (some ((List.replicate 20 7).take 16), some (List.replicate 16 0))) := by
  have hshort := C6_playlist_key c6envShort c6pl ⟨"s1", some ⟨KeyMethod.aes128, some "k", none⟩⟩
    [] ⟨KeyMethod.aes128, some "k", none⟩ "k" (List.replicate 8 7) rfl rfl rfl rfl rfl
  have hlong := C6_playlist_key c6envLong c6pl ⟨"s1", some ⟨KeyMethod.aes128, some "k", none⟩⟩
    [] ⟨KeyMethod.aes128, some "k", none⟩ "k" (List.replicate 20 7) rfl rfl rfl rfl rfl
  exact ⟨(hshort.1 (by decide)).1, (hshort.1 (by decide)).2.2,
    hlong.2.1 (by decide) rfl⟩

/-- The IV string "0x" followed by 32 zero hex digits. -/
def c7ivStr : String := String.mk ('0' :: 'x' :: List.replicate 32 '0')

/-- First C7 segment: declares AES-128 with key URI "k" and the zero IV. -/
def c7seg1 : MediaSegment := ⟨"seg1", some ⟨KeyMethod.aes128, some "k", some c7ivStr⟩⟩

/-- Second C7 segment: no key tag. -/
def c7seg2 : MediaSegment := ⟨"seg2", none⟩

/-- The C7 playlist. -/
def c7pl : MediaPlaylist := ⟨[c7seg1, c7seg2]⟩

/-- Recognizer for key-fetch events. -/
def isKeyFetch : Ev → Bool
  | Ev.keyFetch _ => true
  | _ => false

/-- Environment for C7: the key server returns 16 bytes of value 1, the
segments are a single correctly-padded block each, and the block cipher of
the oracle is the identity. -/
def c7env : Env :=
  ⟨fun _ => Except.ok (List.replicate 16 1),
   fun _ => Except.ok (List.replicate 16 16),
   fun _ b => b⟩

/-- C7 counterexample: on the exact scenario of the claim (first segment
AES-128 with key URI "k" and zero IV, second segment without a key tag),
the key is fetched TWICE — once for the playlist-level key and once again
for the first segment's own key tag — not exactly once as claimed; the
download still succeeds. -/
theorem C7_key_fetched_twice_counterexample :
    (parse_media_playlist c7env c7pl).1.countP isKeyFetch = 2 ∧
    (parse_media_playlist c7env c7pl).2 = Except.ok [[], []] := by
  constructor <;> rfl

/-- C7 amended: in the claim's scenario both segments are indeed decrypted
with the same key/IV pair (the first 16 key bytes fetched from "k", and the
all-zero IV), but the key is fetched exactly TWICE from "k" over the whole
download: once when establishing the playlist-level key and once more for
the first segment's own key tag. -/
theorem C7_same_key_two_fetches :
    ∀ (env : Env) (kb b1 b2 d1 d2 : Bytes),
      env.httpGet "k" = Except.ok kb → 16 ≤ kb.length →
      env.segDownload "seg1" = Except.ok b1 →
      env.segDownload "seg2" = Except.ok b2 →
      decrypt_hls_ts env.blockDec b1 (kb.take 16) (List.replicate 16 0) = Except.ok d1 →
      decrypt_hls_ts env.blockDec b2 (kb.take 16) (List.replicate 16 0) = Except.ok d2 →
      parse_media_playlist env c7pl =
        ([Ev.keyFetch "k", Ev.spawnSink, Ev.keyFetch "k", Ev.tmpCreate, Ev.segFetch "seg1",
          Ev.tmpRemove, Ev.tmpCreate, Ev.segFetch "seg2", Ev.tmpRemove, Ev.waitSink],
         Except.ok [d1, d2]) ∧
      (parse_media_playlist env c7pl).1.countP isKeyFetch = 2 := by
  intro env kb b1 b2 d1 d2 hk hlen hs1 hs2 hd1 hd2
  have hiv : parse_iv c7ivStr = some (List.replicate 16 0) := by decide
  have hd1x : decrypt_hls_ts env.blockDec b1 (List.take 16 kb)
      [0, 0, 0, 0, 0, 0, 0, 0, 0, 0, 0, 0, 0, 0, 0, 0] = Except.ok d1 := hd1
  have hd2x : decrypt_hls_ts env.blockDec b2 (List.take 16 kb)
      [0, 0, 0, 0, 0, 0, 0, 0, 0, 0, 0, 0, 0, 0, 0, 0] = Except.ok d2 := hd2
  have hmain : parse_media_playlist env c7pl =
      ([Ev.keyFetch "k", Ev.spawnSink, Ev.keyFetch "k", Ev.tmpCreate, Ev.segFetch "seg1",
        Ev.tmpRemove, Ev.tmpCreate, Ev.segFetch "seg2", Ev.tmpRemove, Ev.waitSink],
       Except.ok [d1, d2]) := by
    simp [parse_media_playlist, playlist_key_iv, process_segments, seg_key_resolve,
      parse_segment, c7pl, c7seg1, c7seg2, hk, hlen, not_lt.mpr hlen, hiv, hs1, hs2,
      hd1x, hd2x, M.bind, M.log, M.pure, M.fail]
  refine ⟨hmain, ?_⟩
  rw [hmain]
  rfl

/-- Witness for C7 at the concrete environment. -/
theorem C7_same_key_two_fetches_witness :
    parse_media_playlist c7env c7pl =
      ([Ev.keyFetch "k", Ev.spawnSink, Ev.keyFetch "k", Ev.tmpCreate, Ev.segFetch "seg1",
        Ev.tmpRemove, Ev.tmpCreate, Ev.segFetch "seg2", Ev.tmpRemove, Ev.waitSink],
       Except.ok [[], []]) := by
  exact (C7_same_key_two_fetches c7env (List.replicate 16 1) (List.replicate 16 16)
    (List.replicate 16 16) [] [] rfl (by decide) rfl rfl rfl rfl).1

/-- Environment for the C8 counterexample. -/
def c8env : Env :=
  ⟨fun _ => Except.ok [1, 2, 3], fun _ => Except.error (), fun _ b => b⟩

/-- Parser oracle for the C8 counterexample: the body is malformed, so the
external parser fails (m3u8_rs returns an Err, which the source unwraps). -/
def c8parse : Bytes → Option Playlist := fun _ => none

/-- C8 counterexample: when the fetched body is not a well-formed playlist,
`download_playlist` PANICS (the `.unwrap()` on `m3u8_rs::parse_playlist`)
instead of returning any error value of the `Error` enum to the caller of
`download` — there is no `ParseError` variant at all. -/
theorem C8_parse_panics_counterexample :
    download_playlist c8env c8parse 1 "u" = ([], Except.error Failure.panic) ∧
    ∀ e : Err,
      (download_playlist c8env c8parse 1 "u").2 ≠ Except.error (Failure.err e) := by
  constructor
  · rfl
  · intro e h
    simp [download_playlist, c8env, c8parse, M.fail] at h

/-- C8 amended: whenever the fetched playlist body is not a well-formed HLS
playlist, playlist resolution panics via `unwrap` — the process aborts
rather than returning an error value to the caller — and the parse is not
retried; the failure is still fatal. -/
theorem C8_parse_panic :
    ∀ (env : Env) (parse : Bytes → Option Playlist) (fuel : Nat) (url : String)
      (payload : Bytes),
      env.httpGet url = Except.ok payload → parse payload = none →
      download_playlist env parse (fuel + 1) url = ([], Except.error Failure.panic) := by
  intro env parse fuel url payload hget hparse
  simp [download_playlist, hget, hparse, M.fail]

/-- Witness for C8 at the concrete malformed-playlist environment. -/
theorem C8_parse_panic_witness :
    download_playlist c8env c8parse 5 "u" = ([], Except.error Failure.panic) :=
  C8_parse_panic c8env c8parse 4 "u" [1, 2, 3] rfl rfl

/-- The spec's reading of IV parsing: strip AT MOST ONE "0x" prefix. -/
def specStripOnce : List Char → List Char
  | '0' :: 'x' :: rest => rest
  | l => l

/-- The C10 input: "0x0x" followed by 32 zero hex digits. -/
def c10iv : String := String.mk ('0' :: 'x' :: '0' :: 'x' :: List.replicate 32 '0')

/-- C10 counterexample: for the input "0x0x" + 32 zero digits, stripping one
optional "0x" prefix leaves "0x" + 32 digits, which is not valid hex (the
claim therefore predicts a panic) — yet `parse_iv` succeeds and returns the
zero IV, because `trim_start_matches` removes ALL leading "0x" occurrences,
not just one. -/
theorem C10_double_prefix_counterexample :
    hexDecode (specStripOnce c10iv.data) = none ∧
    parse_iv c10iv = some (List.replicate 16 0) := by
  constructor <;> decide

/-- A pure-hex character sequence cannot start with "0x" ('x' is not a hex
digit), so the repeated strip is the identity on decodable strings. -/
theorem trim0x_of_hexDecode {l : List Char} {b : Bytes} (h : hexDecode l = some b) :
    trim0x l = l := by
  cases l with
  | nil => rfl
  | cons a tl =>
    cases tl with
    | nil => simp [hexDecode] at h
    | cons a2 tl2 =>
      by_cases ha : a = '0'
      · by_cases hb : a2 = 'x'
        · subst ha
          subst hb
          simp [hexDecode, hexVal] at h
        · rw [trim0x.eq_def]
          split
          · rename_i heq
            injection heq with h1 h2
            injection h2 with h3 h4
            exact absurd h3 hb
          · rfl
      · rw [trim0x.eq_def]
        split
        · rename_i heq
          injection heq with h1 h2
          exact absurd h1 ha
        · rfl

/-- C10 amended: `parse_iv` panics exactly when, after stripping ALL leading
"0x" occurrences, the remainder is not a valid hex encoding of exactly 16
bytes; for a plain 32-hex-digit string, the "0x"-prefixed and unprefixed
forms both return the same 16-byte value. -/
theorem C10_iv_parsing :
    ∀ s : String,
      (hexDecode (trim0x s.data) = none → parse_iv s = none) ∧
      (∀ b : Bytes, hexDecode (trim0x s.data) = some b → b.length ≠ 16 →
        parse_iv s = none) ∧
      (∀ b : Bytes, hexDecode (trim0x s.data) = some b → b.length = 16 →
        parse_iv s = some b) ∧
      (∀ b : Bytes, hexDecode s.data = some b → b.length = 16 →
        parse_iv s = some b ∧
        parse_iv (String.mk ('0' :: 'x' :: s.data)) = some b) := by
  intro s
  refine ⟨?_, ?_, ?_, ?_⟩
  · intro h
    simp [parse_iv, h]
  · intro b h hne
    simp [parse_iv, h, hne]
  · intro b h h16
    simp [parse_iv, h, h16]
  · intro b h h16
    have htrim : trim0x s.data = s.data := trim0x_of_hexDecode h
    constructor
    · simp [parse_iv, htrim, h, h16]
    · have htrim2 : trim0x ('0' :: 'x' :: s.data) = s.data := by
        rw [trim0x.eq_def]
        split
        · rename_i heq
          injection heq with h1 h2
          injection h2 with h3 h4
          rw [h4] at htrim ⊢
          exact htrim
        · rename_i hno
          exact absurd rfl (hno (s.data))
      simp [parse_iv, htrim2, h, h16]

/-- Witness for C10 on the 32-zero-digit string, prefixed and unprefixed. -/
theorem C10_iv_parsing_witness :
    parse_iv (String.mk (List.replicate 32 '0')) = some (List.replicate 16 0) ∧
    parse_iv (String.mk ('0' :: 'x' :: List.replicate 32 '0')) =
      some (List.replicate 16 0) := by
  have h := (C10_iv_parsing (String.mk (List.replicate 32 '0'))).2.2.2
    (List.replicate 16 0) (by decide) (by decide)
  exact ⟨h.1, h.2⟩
